import Mathlib

/-!
Shallow embedding of `computer_vision/template_matching/cross_correlation.py`
(rotation-invariant cross-correlation demo).

Images are dense 2-D rational matrices.  The external numerical primitives the
script delegates to are embedded as follows:

* `scipy.signal.correlate2d(bg, f, boundary='symm', mode='same')` is embedded
  as `correlate2d`: the output keeps the background's shape and each output
  cell is the centered sliding inner product against the symmetric (mirror)
  extension of the background.
* `np.argmax` / `np.unravel_index` are embedded as `argmaxFlat` /
  division-and-remainder on the flat index (row-major, first occurrence of the
  maximum).
* `scipy.ndimage.rotate(f, angle, reshape=True)` is an external interpolation
  routine; `rotational_cc` takes it as an explicit function parameter `rot`.
* `scipy.datasets.face(gray=True)` is a fixed external image; `scipy_example`
  takes it as the parameter `face`.  The draw of
  `np.random.default_rng().standard_normal(shape)` is the parameter `noise`.

Floating point arithmetic is modelled exactly over `ℚ`.
-/

/-- Dense 2-D numeric array: a shape together with an entry function.
Entries outside the shape are irrelevant junk. -/
structure Mat where
  rows : Nat
  cols : Nat
  entry : Nat → Nat → ℚ

def matZero : Mat := ⟨0, 0, fun _ _ => 0⟩

instance : Inhabited Mat := ⟨matZero⟩

/-- Sum of all entries of a matrix (`np.ndarray.sum`). -/
def totalSum (m : Mat) : ℚ :=
  ∑ i ∈ Finset.range m.rows, ∑ j ∈ Finset.range m.cols, m.entry i j

/-- Mean of all entries of a matrix (`np.ndarray.mean`). -/
def mean (m : Mat) : ℚ := totalSum m / ((m.rows : ℚ) * (m.cols : ℚ))

/-- Subtract a scalar from every entry (`a - c`). -/
def subScalar (m : Mat) (c : ℚ) : Mat :=
  ⟨m.rows, m.cols, fun i j => m.entry i j - c⟩

/-- Element-wise sum of two matrices (`a + b`). -/
def matAdd (a b : Mat) : Mat :=
  ⟨a.rows, a.cols, fun i j => a.entry i j + b.entry i j⟩

/-- Multiply every entry by a scalar on the right (`a * c`). -/
def matScale (c : ℚ) (m : Mat) : Mat :=
  ⟨m.rows, m.cols, fun i j => m.entry i j * c⟩

/-- NumPy basic slice `m[r0:r1, c0:c1]` (with NumPy's clamping of the stop
bounds to the array extent). -/
def slice2d (m : Mat) (r0 r1 c0 c1 : Nat) : Mat :=
  ⟨min r1 m.rows - r0, min c1 m.cols - c0, fun i j => m.entry (r0 + i) (c0 + j)⟩

/-- Embedding of `scipy_example`: builds the demo background and filter from
the fixed dataset image `face`; `noise` is the `standard_normal` draw consumed
when `add_noise` is set.  The filter is `np.copy`-extracted from the (possibly
normalized) background before the noise step; noise is then added to the
background only. -/
def scipy_example (face noise : Mat) (normalize add_noise : Bool) : Mat × Mat :=
  let p :=
    if normalize then
      let background_image := subScalar face (mean face)
      let f0 := slice2d background_image 300 365 670 750
      (background_image, subScalar f0 (mean f0))
    else
      let background_image := face
      (background_image, slice2d background_image 300 365 670 750)
  let background_image := if add_noise then matAdd p.1 (matScale 50 noise) else p.1
  (background_image, p.2)

/-- Symmetric (mirror, edge-included) boundary extension of index range
`[0, n)`: the reflection is `2*n`-periodic, `-1 ↦ 0`, `n ↦ n-1`. -/
def symIdx (n : Nat) (i : Int) : Nat :=
  let j := i % (2 * (n : Int))
  if j < (n : Int) then j.toNat else 2 * n - 1 - j.toNat

/-- Centering offset of the "same" output convention for a kernel extent `n`:
row `i` of the output aligns kernel row `k` with extended input row
`i + k - ctrOff n`. -/
def ctrOff (n : Nat) : Int := ((n : Int) - 1) - ((n : Int) - 1) / 2

/-- Embedding of `scipy.signal.correlate2d(bg, f, boundary='symm',
mode='same')`: output shape equals the background's shape; each cell is the
inner product of the kernel with the symmetrically extended background,
centered per the "same" convention.  The kernel is not flipped
(cross-correlation, not convolution). -/
def correlate2d (background_image filt : Mat) : Mat :=
  { rows := background_image.rows
    cols := background_image.cols
    entry := fun i j =>
      ∑ k ∈ Finset.range filt.rows, ∑ l ∈ Finset.range filt.cols,
        background_image.entry
            (symIdx background_image.rows ((i : Int) + (k : Int) - ctrOff filt.rows))
            (symIdx background_image.cols ((j : Int) + (l : Int) - ctrOff filt.cols))
          * filt.entry k l }

/-- Entry of `m` at a row-major flat index (`np.ndarray.flatten` order). -/
def entryFlat (m : Mat) (k : Nat) : ℚ := m.entry (k / m.cols) (k % m.cols)

/-- First-occurrence argmax of `g` over `0, 1, ..., n-1`: the accumulator is
replaced only on a strictly larger value, as `np.argmax` documents. -/
def argmaxList (g : Nat → ℚ) (n : Nat) : Nat :=
  (List.range n).foldl (fun best k => if g best < g k then k else best) 0

/-- Embedding of `np.argmax(corr)`: flat row-major index of the first
occurrence of the maximum entry. -/
def argmaxFlat (m : Mat) : Nat := argmaxList (entryFlat m) (m.rows * m.cols)

/-- Return value of `cross_correlation`: the flag `return_max_loc` changes the
shape of the returned value (surface alone, or surface with peak location). -/
inductive CCResult where
  | surface : Mat → CCResult
  | withLoc : Mat → Nat × Nat → CCResult

/-- Embedding of `cross_correlation`: correlate, and when `return_max_loc` is
set, unravel the flat argmax into `(row, col) = (y, x)` and report the swapped
pair `(x, y)`. -/
def cross_correlation (background_image filt : Mat) (return_max_loc : Bool) : CCResult :=
  let corr := correlate2d background_image filt
  if return_max_loc then
    let flat := argmaxFlat corr
    let y := flat / corr.cols
    let x := flat % corr.cols
    CCResult.withLoc corr (x, y)
  else
    CCResult.surface corr

/-- Angles visited by the sweep loop `while filter_angle < 360`, starting from
`filter_angle` and advancing by `step` each iteration.  The loop is embedded
with an explicit fuel; `360` units suffice for every positive step because each
iteration consumes at least `1` degree of the `[0, 360)` range. -/
def sweepGo (step : Int) : Nat → Int → List Int
  | 0, _ => []
  | fuel + 1, filter_angle =>
      if filter_angle < 360 then filter_angle :: sweepGo step fuel (filter_angle + step)
      else []

/-- Angle sequence of one full sweep: start at `0`, step by `step`. -/
def sweepAngles (step : Int) : List Int := sweepGo step 360 0

/-- Value of `filter_angle` after `n` executions of `filter_angle += angle`,
starting from `0`.  Used to reason about the loop for non-positive steps, where
it never reaches `360`. -/
def filterAngleAfter (step : Int) : Nat → Int
  | 0 => 0
  | n + 1 => filterAngleAfter step n + step

/-- Exact number of iterations of the sweep for a positive `step`, as an
integer ceiling starting from angle `a`: `⌈(360 - a) / step⌉`. -/
def nIter (step a : Int) : Nat := ((360 - a + step - 1) / step).toNat

/-- Body of the sweep loop: per-angle `(surface, peak location)` pairs in
increasing-angle order.  `rot` is the external
`scipy.ndimage.rotate(·, ·, reshape=True)` primitive. -/
def sweepData (background_image filt : Mat) (rot : Mat → Int → Mat) (step : Int) :
    List (Mat × (Nat × Nat)) :=
  (sweepAngles step).map fun filter_angle =>
    let rotated_filter := rot filt filter_angle
    match cross_correlation background_image rotated_filter true with
    | CCResult.withLoc corr max_loc => (corr, max_loc)
    | CCResult.surface corr => (corr, (0, 0))

/-- The `all_correlations` list accumulated by the sweep. -/
def sweepCorrelations (background_image filt : Mat) (rot : Mat → Int → Mat) (step : Int) :
    List Mat :=
  (sweepData background_image filt rot step).map Prod.fst

/-- The `max_locs` list accumulated by the sweep. -/
def sweepMaxLocs (background_image filt : Mat) (rot : Mat → Int → Mat) (step : Int) :
    List (Nat × Nat) :=
  (sweepData background_image filt rot step).map Prod.snd

/-- Embedding of `np.mean(all_correlations, axis=0)`: element-wise mean of a
stack of equal-shaped surfaces. -/
def meanStack (ms : List Mat) : Mat :=
  { rows := (ms.headD matZero).rows
    cols := (ms.headD matZero).cols
    entry := fun i j => (ms.map fun m => m.entry i j).sum / (ms.length : ℚ) }

/-- Embedding of `np.max(all_correlations, axis=0)`: element-wise maximum of a
stack of equal-shaped surfaces. -/
def maxStack (ms : List Mat) : Mat :=
  match ms with
  | [] => matZero
  | m :: rest =>
      { rows := m.rows
        cols := m.cols
        entry := fun i j => rest.foldl (fun acc x => max acc (x.entry i j)) (m.entry i j) }

/-- Return value of `rotational_cc`: the two boolean flags select one of four
result shapes. -/
inductive RCCResult where
  | both : Mat → Mat → RCCResult
  | average : Mat → RCCResult
  | maxSurface : Mat → RCCResult
  | full : List Mat → List (Nat × Nat) → RCCResult

/-- Observable outcome of a call to `rotational_cc`: the `assert angle < 360`
can fail, the `while` loop can fail to terminate (for `angle ≤ 0` the running
angle never reaches `360`; see `filterAngleAfter`), or a result is returned. -/
inductive RCCOutcome where
  | assertFail : RCCOutcome
  | diverges : RCCOutcome
  | ok : RCCResult → RCCOutcome

/-- Embedding of `rotational_cc`: assert `angle < 360`, sweep the rotated
filter over `[0, 360)`, then select the result by the four-way flag branch.
The `diverges` arm stands for the non-terminating run of the source's `while`
loop when `angle ≤ 0`; `filterAngleAfter` justifies that reading. -/
def rotational_cc (background_image filt : Mat) (rot : Mat → Int → Mat) (angle : Int)
    (return_average return_max : Bool) : RCCOutcome :=
  if angle < 360 then
    if 0 < angle then
      let pairs := sweepData background_image filt rot angle
      let all_correlations := pairs.map Prod.fst
      let max_locs := pairs.map Prod.snd
      if return_average && return_max then
        RCCOutcome.ok (RCCResult.both (meanStack all_correlations) (maxStack all_correlations))
      else if return_average then
        RCCOutcome.ok (RCCResult.average (meanStack all_correlations))
      else if return_max then
        RCCOutcome.ok (RCCResult.maxSurface (maxStack all_correlations))
      else
        RCCOutcome.ok (RCCResult.full all_correlations max_locs)
    else RCCOutcome.diverges
  else RCCOutcome.assertFail

/-!
Heap-level model of the generator, for the aliasing claim: NumPy arrays are
views (base address, offsets, extents) into a store of backing buffers.  Basic
slicing yields a view on the same base; `np.copy` allocates a fresh base;
in-place operators write through the view into its base buffer.
-/

/-- A NumPy array object: a window into the backing buffer at `base`. -/
structure NDArray where
  base : Nat
  offR : Nat
  offC : Nat
  rows : Nat
  cols : Nat

/-- The store of backing buffers, addressed by allocation order. -/
structure Heap where
  next : Nat
  mem : Nat → Nat → Nat → ℚ

/-- Read one cell of an array through its view window. -/
def readCell (h : Heap) (a : NDArray) (i j : Nat) : ℚ :=
  h.mem a.base (a.offR + i) (a.offC + j)

/-- Allocate a fresh buffer holding `data` and return an array viewing all of
it. -/
def allocArr (h : Heap) (rows cols : Nat) (data : Nat → Nat → ℚ) : NDArray × Heap :=
  (⟨h.next, 0, 0, rows, cols⟩,
   ⟨h.next + 1, fun b => if b = h.next then data else h.mem b⟩)

/-- NumPy basic slicing `a[r0:r1, c0:c1]`: a view on the same base. -/
def sliceView (a : NDArray) (r0 r1 c0 c1 : Nat) : NDArray :=
  ⟨a.base, a.offR + r0, a.offC + c0, min r1 a.rows - r0, min c1 a.cols - c0⟩

/-- Embedding of `np.copy`: materialise the view into a fresh buffer. -/
def copyArr (h : Heap) (a : NDArray) : NDArray × Heap :=
  allocArr h a.rows a.cols (fun i j => readCell h a i j)

/-- Write a single cell through a view (an in-place element update). -/
def writeCell (h : Heap) (a : NDArray) (i j : Nat) (v : ℚ) : Heap :=
  { h with
    mem := fun b r c =>
      if b = a.base ∧ r = a.offR + i ∧ c = a.offC + j then v else h.mem b r c }

/-- Embedding of the in-place `arr -= c`: subtract `c` from every cell in the
view window, writing through to the base buffer. -/
def subScalarInPlace (h : Heap) (a : NDArray) (c : ℚ) : Heap :=
  { h with
    mem := fun b r c2 =>
      if b = a.base ∧ a.offR ≤ r ∧ r < a.offR + a.rows ∧ a.offC ≤ c2 ∧ c2 < a.offC + a.cols
      then h.mem b r c2 - c
      else h.mem b r c2 }

/-- Mean of the cells in an array's view window. -/
def meanArr (h : Heap) (a : NDArray) : ℚ :=
  (∑ i ∈ Finset.range a.rows, ∑ j ∈ Finset.range a.cols, readCell h a i j) /
    ((a.rows : ℚ) * (a.cols : ℚ))

/-- Mean of a raw `rows × cols` grid of samples. -/
def meanQ (f : Nat → Nat → ℚ) (rows cols : Nat) : ℚ :=
  (∑ i ∈ Finset.range rows, ∑ j ∈ Finset.range cols, f i j) /
    ((rows : ℚ) * (cols : ℚ))

/-- Heap-level embedding of `scipy_example`: the background buffer is
allocated first, the filter is `np.copy`-ed out of a slice view of it, the
filter's in-place mean subtraction writes only into the filter's own buffer,
and the noisy background (if requested) is a fresh buffer again. -/
def scipy_example_heap (face : Nat → Nat → ℚ) (faceRows faceCols : Nat)
    (noise : Nat → Nat → ℚ) (normalize add_noise : Bool) : NDArray × NDArray × Heap :=
  let h0 : Heap := ⟨0, fun _ _ _ => 0⟩
  let p1 :=
    if normalize then
      allocArr h0 faceRows faceCols (fun i j => face i j - meanQ face faceRows faceCols)
    else
      allocArr h0 faceRows faceCols face
  let background_image := p1.1
  let h1 := p1.2
  let p2 := copyArr h1 (sliceView background_image 300 365 670 750)
  let filt := p2.1
  let h2 := p2.2
  let h3 := if normalize then subScalarInPlace h2 filt (meanArr h2 filt) else h2
  let p4 :=
    if add_noise then
      allocArr h3 faceRows faceCols (fun i j => readCell h3 background_image i j + noise i j * 50)
    else (background_image, h3)
  (p4.1, filt, p4.2)

/-!
Concrete sample inputs used by witnesses and counterexamples.
-/

/-- A small concrete background image. -/
def bgW : Mat := ⟨2, 3, fun i j => (i : ℚ) * 3 + (j : ℚ)⟩

/-- A small concrete filter. -/
def fW : Mat := ⟨1, 1, fun _ _ => 1⟩

/-- A concrete stand-in for the external rotation primitive that is the
identity at every angle (in particular at `0`). -/
def rotW : Mat → Int → Mat := fun m _ => m

/-- A concrete dataset image just large enough to contain the hard-coded
filter window `[300:365, 670:750]`. -/
def faceW : Mat := ⟨365, 750, fun i j => (i : ℚ) + (j : ℚ)⟩

/-- A concrete noise draw matching `faceW`'s shape. -/
def noiseW : Mat := ⟨365, 750, fun _ _ => 1⟩

/-!
Helper lemmas.
-/

/-- One unfolding step of the argmax fold. -/
theorem argmaxList_succ (g : Nat → ℚ) (m : Nat) :
    argmaxList g (m + 1) = if g (argmaxList g m) < g m then m else argmaxList g m := by
  unfold argmaxList
  rw [List.range_succ, List.foldl_append]
  rfl

/-- The argmax fold returns an in-range index of the maximum value, and every
index before it holds a strictly smaller value (first occurrence). -/
theorem argmaxList_spec (g : Nat → ℚ) : ∀ n, 0 < n →
    argmaxList g n < n ∧ (∀ k, k < n → g k ≤ g (argmaxList g n)) ∧
      ∀ k, k < argmaxList g n → g k < g (argmaxList g n) := by
  intro n
  induction n with
  | zero => omega
  | succ m ih =>
    intro _
    rcases Nat.eq_zero_or_pos m with hm | hm
    · subst hm
      have h1 : argmaxList g 1 = 0 := by
        rw [argmaxList_succ, show argmaxList g 0 = 0 from rfl, if_neg (lt_irrefl _)]
      rw [h1]
      refine ⟨by omega, ?_, by omega⟩
      intro k hk
      have hk0 : k = 0 := by omega
      rw [hk0]
    · obtain ⟨hblt, hmax, hfirst⟩ := ih hm
      rw [argmaxList_succ]
      by_cases hcond : g (argmaxList g m) < g m
      · rw [if_pos hcond]
        refine ⟨Nat.lt_succ_self m, ?_, ?_⟩
        · intro k hk
          rcases (by omega : k < m ∨ k = m) with h | h
          · exact le_of_lt (lt_of_le_of_lt (hmax k h) hcond)
          · rw [h]
        · intro k hk
          exact lt_of_le_of_lt (hmax k hk) hcond
      · rw [if_neg hcond]
        refine ⟨Nat.lt_succ_of_lt hblt, ?_, hfirst⟩
        intro k hk
        rcases (by omega : k < m ∨ k = m) with h | h
        · exact hmax k h
        · rw [h]
          exact le_of_not_lt hcond

/-- Row-major flat index of an in-range cell is in range. -/
theorem flat_lt {rows cols i j : Nat} (hi : i < rows) (hj : j < cols) :
    i * cols + j < rows * cols := by
  calc i * cols + j < i * cols + cols := by omega
    _ = (i + 1) * cols := by ring
    _ ≤ rows * cols := Nat.mul_le_mul_right cols (by omega)

/-- Unravelling a packed flat index recovers the row. -/
theorem flat_div {cols : Nat} (i : Nat) {j : Nat} (hj : j < cols) :
    (i * cols + j) / cols = i := by
  have hc : 0 < cols := by omega
  rw [Nat.add_comm, Nat.mul_comm, Nat.add_mul_div_left _ _ hc, Nat.div_eq_of_lt hj,
    Nat.zero_add]

/-- Unravelling a packed flat index recovers the column. -/
theorem flat_mod {cols : Nat} (i : Nat) {j : Nat} (hj : j < cols) :
    (i * cols + j) % cols = j := by
  rw [Nat.add_comm, Nat.mul_comm, Nat.add_mul_mod_self_left, Nat.mod_eq_of_lt hj]

/-- Flat-index read of a packed cell is the cell itself. -/
theorem entryFlat_ix (m : Mat) (i : Nat) {j : Nat} (hj : j < m.cols) :
    entryFlat m (i * m.cols + j) = m.entry i j := by
  unfold entryFlat
  rw [flat_div i hj, flat_mod i hj]

/-- The sweep iteration count is at least one while the angle is below 360. -/
theorem nIter_pos {step a : Int} (hstep : 0 < step) (ha : a < 360) : 1 ≤ nIter step a := by
  unfold nIter
  have h1 : (1 : Int) ≤ (360 - a + step - 1) / step :=
    (Int.le_ediv_iff_mul_le hstep).mpr (by omega)
  omega

/-- The sweep iteration count is zero once the angle reaches 360. -/
theorem nIter_zero {step a : Int} (hstep : 0 < step) (ha : 360 ≤ a) : nIter step a = 0 := by
  unfold nIter
  have h1 : (360 - a + step - 1) / step < 1 :=
    (Int.ediv_lt_iff_lt_mul hstep).mpr (by omega)
  have h2 : (360 - a + step - 1) / step ≤ 0 := by omega
  omega

/-- One loop iteration decrements the remaining iteration count. -/
theorem nIter_succ {step a : Int} (hstep : 0 < step) (ha : a < 360) :
    nIter step a = nIter step (a + step) + 1 := by
  unfold nIter
  have h2 : (360 - a + step - 1) = (360 - (a + step) + step - 1) + 1 * step := by ring
  have key : (360 - a + step - 1) / step = (360 - (a + step) + step - 1) / step + 1 := by
    rw [h2, Int.add_mul_ediv_right _ _ (ne_of_gt hstep)]
  have h3 : 0 ≤ (360 - (a + step) + step - 1) / step :=
    Int.ediv_nonneg (by omega) (le_of_lt hstep)
  omega

/-- Characterization of the fueled sweep loop for a positive step: given
enough fuel it visits exactly the arithmetic progression of `nIter step a`
angles starting at `a`. -/
theorem sweepGo_char (step : Int) (hstep : 0 < step) :
    ∀ fuel a, nIter step a ≤ fuel →
      sweepGo step fuel a = (List.range (nIter step a)).map fun i : Nat => a + (i : Int) * step := by
  intro fuel
  induction fuel with
  | zero =>
    intro a hle
    have h0 : nIter step a = 0 := by omega
    rw [h0]
    rfl
  | succ f ih =>
    intro a hle
    by_cases ha : a < 360
    · have hsucc := nIter_succ hstep ha
      rw [show sweepGo step (f + 1) a
            = if a < 360 then a :: sweepGo step f (a + step) else [] from rfl,
        if_pos ha, ih (a + step) (by omega), hsucc, List.range_succ_eq_map]
      simp only [List.map_cons, List.map_map]
      congr 1
      · norm_num
      · refine List.map_congr_left ?_
        intro i _
        simp only [Function.comp]
        push_cast
        ring
    · have h0 : nIter step a = 0 := nIter_zero hstep (by omega)
      rw [show sweepGo step (f + 1) a
            = if a < 360 then a :: sweepGo step f (a + step) else [] from rfl,
        if_neg ha, h0]
      rfl

/-- With a positive step the full 360 units of fuel are never exhausted. -/
theorem nIter_le_360 {step : Int} (h0 : 0 < step) : nIter step 0 ≤ 360 := by
  unfold nIter
  have h1 : (360 - 0 + step - 1) / step < 361 := by
    refine (Int.ediv_lt_iff_lt_mul h0).mpr ?_
    omega
  omega

/-- The sweep visits exactly the arithmetic progression `0, step, 2*step, ...`
of length `nIter step 0`. -/
theorem sweepAngles_char {step : Int} (h0 : 0 < step) :
    sweepAngles step = (List.range (nIter step 0)).map fun i : Nat => (i : Int) * step := by
  unfold sweepAngles
  rw [sweepGo_char step h0 360 0 (nIter_le_360 h0)]
  refine List.map_congr_left ?_
  intro i _
  ring

/-- Length of the sweep is the iteration count. -/
theorem sweepAngles_length {step : Int} (h0 : 0 < step) :
    (sweepAngles step).length = nIter step 0 := by
  rw [sweepAngles_char h0]
  simp

/-- Every angle the sweep tests is strictly below 360. -/
theorem sweepAngles_lt_360 {step : Int} (h0 : 0 < step) :
    ∀ a ∈ sweepAngles step, a < 360 := by
  intro a ha
  rw [sweepAngles_char h0] at ha
  simp only [List.mem_map, List.mem_range] at ha
  obtain ⟨i, hi, rfl⟩ := ha
  have hq : ((360 : Int) + step - 1) / step = 359 / step + 1 := by
    have h2 : (360 : Int) + step - 1 = 359 + 1 * step := by ring
    rw [h2, Int.add_mul_ediv_right _ _ (ne_of_gt h0)]
  have hnn : (0 : Int) ≤ 359 / step := Int.ediv_nonneg (by norm_num) (le_of_lt h0)
  have hiq : (i : Int) ≤ 359 / step := by
    unfold nIter at hi
    have h3 : (360 : Int) - 0 + step - 1 = 360 + step - 1 := by ring
    rw [h3, hq] at hi
    omega
  have hmul : (i : Int) * step ≤ 359 / step * step :=
    mul_le_mul_of_nonneg_right hiq (le_of_lt h0)
  have hle : (359 : Int) / step * step ≤ 359 := Int.ediv_mul_le 359 (ne_of_gt h0)
  omega

/-- The iteration-count formula is the rational ceiling of `360 / step`. -/
theorem nIter_eq_ceil {step : Int} (h0 : 0 < step) :
    ((360 + step - 1) / step : Int) = ⌈(360 : ℚ) / (step : ℚ)⌉ := by
  have hstepQ : (0 : ℚ) < (step : ℚ) := by exact_mod_cast h0
  have hub : (360 : Int) ≤ (360 + step - 1) / step * step := by
    have h2 := Int.lt_ediv_add_one_mul_self (360 + step - 1) h0
    have h3 : ((360 + step - 1) / step + 1) * step
        = (360 + step - 1) / step * step + step := by ring
    rw [h3] at h2
    linarith
  have hlb : (360 + step - 1) / step * step ≤ 359 + step := by
    have h2 := Int.ediv_mul_le (360 + step - 1) (ne_of_gt h0)
    linarith
  symm
  rw [Int.ceil_eq_iff]
  constructor
  · rw [lt_div_iff₀ hstepQ]
    have hInt : ((360 + step - 1) / step - 1) * step < 360 := by
      have h4 : ((360 + step - 1) / step - 1) * step
          = (360 + step - 1) / step * step - step := by ring
      linarith [h4.le, h4.ge]
    exact_mod_cast hInt
  · rw [div_le_iff₀ hstepQ]
    exact_mod_cast hub

/-- Centering a grid of samples at its own mean yields mean zero. -/
theorem mean_center (rows cols : Nat) (e : Nat → Nat → ℚ) (hr : rows ≠ 0) (hc : cols ≠ 0) :
    (∑ i ∈ Finset.range rows, ∑ j ∈ Finset.range cols,
        (e i j -
          (∑ i2 ∈ Finset.range rows, ∑ j2 ∈ Finset.range cols, e i2 j2) /
            ((rows : ℚ) * (cols : ℚ)))) /
      ((rows : ℚ) * (cols : ℚ)) = 0 := by
  have hrQ : ((rows : ℚ)) ≠ 0 := Nat.cast_ne_zero.mpr hr
  have hcQ : ((cols : ℚ)) ≠ 0 := Nat.cast_ne_zero.mpr hc
  rw [div_eq_zero_iff]
  left
  simp only [Finset.sum_sub_distrib, Finset.sum_const, Finset.card_range, nsmul_eq_mul]
  field_simp
  ring

/-- Subtracting a matrix's own mean from each entry yields a matrix of mean
zero (for a nonempty matrix). -/
theorem mean_subScalar_self (m : Mat) (hr : m.rows ≠ 0) (hc : m.cols ≠ 0) :
    mean (subScalar m (mean m)) = 0 :=
  mean_center m.rows m.cols m.entry hr hc

/-!
Claim theorems.
-/

/-- C1: for every background, filter and valid angle step, the return shape of
`rotational_cc` is selected after the sweep by the four-way flag branch: both
flags give the pair (mean surface, max surface) in that order with the peak
list discarded; only `return_average` gives the mean surface; only
`return_max` gives the max surface; neither gives the pair (list of per-angle
surfaces, list of per-angle peak locations). -/
theorem rotational_cc_return_shapes (bg filt : Mat) (rot : Mat → Int → Mat) (step : Int)
    (h0 : 0 < step) (h1 : step < 360) :
    rotational_cc bg filt rot step true true
        = RCCOutcome.ok (RCCResult.both (meanStack (sweepCorrelations bg filt rot step))
            (maxStack (sweepCorrelations bg filt rot step)))
    ∧ rotational_cc bg filt rot step true false
        = RCCOutcome.ok (RCCResult.average (meanStack (sweepCorrelations bg filt rot step)))
    ∧ rotational_cc bg filt rot step false true
        = RCCOutcome.ok (RCCResult.maxSurface (maxStack (sweepCorrelations bg filt rot step)))
    ∧ rotational_cc bg filt rot step false false
        = RCCOutcome.ok (RCCResult.full (sweepCorrelations bg filt rot step)
            (sweepMaxLocs bg filt rot step)) := by
  refine ⟨?_, ?_, ?_, ?_⟩ <;>
    simp [rotational_cc, sweepCorrelations, sweepMaxLocs, h0, h1]

/-- Witness for C1 at a concrete input. -/
theorem rotational_cc_return_shapes_witness :
    ((0 : Int) < 10 ∧ (10 : Int) < 360)
    ∧ rotational_cc bgW fW rotW 10 true true
        = RCCOutcome.ok (RCCResult.both (meanStack (sweepCorrelations bgW fW rotW 10))
            (maxStack (sweepCorrelations bgW fW rotW 10))) :=
  ⟨⟨by decide, by decide⟩,
   (rotational_cc_return_shapes bgW fW rotW 10 (by decide) (by decide)).1⟩

/-- C2: for `0 < step < 360` the sweep loop terminates, visits exactly the
angles `0, step, 2*step, ...`, performs `⌈360 / step⌉` iterations (36 for step
10, 52 for step 7), and every tested angle is strictly below 360. -/
theorem sweep_iteration_count (step : Int) (h0 : 0 < step) (h1 : step < 360) :
    sweepAngles step
        = (List.range (((360 + step - 1) / step).toNat)).map (fun i : Nat => (i : Int) * step)
    ∧ (sweepAngles step).length = ((360 + step - 1) / step).toNat
    ∧ ((360 + step - 1) / step : Int) = ⌈(360 : ℚ) / (step : ℚ)⌉
    ∧ (∀ a ∈ sweepAngles step, a < 360)
    ∧ (sweepAngles 10).length = 36
    ∧ (sweepAngles 7).length = 52 := by
  have hn : nIter step 0 = ((360 + step - 1) / step).toNat := by
    unfold nIter
    norm_num
  refine ⟨?_, ?_, nIter_eq_ceil h0, sweepAngles_lt_360 h0, by decide, by decide⟩
  · rw [sweepAngles_char h0, hn]
  · rw [sweepAngles_length h0, hn]

/-- Witness for C2 at the concrete step 10. -/
theorem sweep_iteration_count_witness :
    ((0 : Int) < 10 ∧ (10 : Int) < 360)
    ∧ (sweepAngles 10).length = (((360 + 10 - 1) / 10 : Int)).toNat :=
  ⟨⟨by decide, by decide⟩, (sweep_iteration_count 10 (by decide) (by decide)).2.1⟩

/-- C3 (counterexample): with `angle_step = 0` — outside `(0, 360)` — the call
does not fail the assertion (the source only asserts `angle < 360`); instead
the sweep loop never terminates. -/
theorem rotational_cc_invalid_angle_cex :
    rotational_cc bgW fW rotW 0 false false ≠ RCCOutcome.assertFail := by
  rw [show rotational_cc bgW fW rotW 0 false false = RCCOutcome.diverges from rfl]
  exact fun hcon => RCCOutcome.noConfusion hcon

/-- C3 (amended): `rotational_cc` fails fast with an assertion error exactly
for `angle_step ≥ 360`; for `angle_step ≤ 0` no error is raised and the sweep
loop never exits, because the running angle never reaches 360. -/
theorem rotational_cc_invalid_angle_amended (bg filt : Mat) (rot : Mat → Int → Mat)
    (step : Int) (ra rm : Bool) :
    (360 ≤ step → rotational_cc bg filt rot step ra rm = RCCOutcome.assertFail)
    ∧ (step ≤ 0 → rotational_cc bg filt rot step ra rm = RCCOutcome.diverges
        ∧ ∀ n : Nat, filterAngleAfter step n < 360) := by
  constructor
  · intro h
    unfold rotational_cc
    rw [if_neg (by omega)]
  · intro h
    refine ⟨?_, ?_⟩
    · unfold rotational_cc
      rw [if_pos (by omega), if_neg (by omega)]
    · have hval : ∀ k : Nat, filterAngleAfter step k ≤ 0 := by
        intro k
        induction k with
        | zero => simp [filterAngleAfter]
        | succ k2 ih =>
          show filterAngleAfter step k2 + step ≤ 0
          omega
      intro n
      have h2 := hval n
      omega

/-- Witness for C3's amended statement at concrete steps 360 and 0. -/
theorem rotational_cc_invalid_angle_amended_witness :
    rotational_cc bgW fW rotW 360 false false = RCCOutcome.assertFail
    ∧ rotational_cc bgW fW rotW 0 false false = RCCOutcome.diverges
    ∧ filterAngleAfter 0 5 < 360 :=
  ⟨(rotational_cc_invalid_angle_amended bgW fW rotW 360 false false).1 (by decide),
   ((rotational_cc_invalid_angle_amended bgW fW rotW 0 false false).2 (by decide)).1,
   ((rotational_cc_invalid_angle_amended bgW fW rotW 0 false false).2 (by decide)).2 5⟩

/-- C4: with `return_max_loc` set, `cross_correlation` returns the surface and
the swapped pair `(x, y) = (column, row)` of the first row-major occurrence of
the surface's maximum; the coordinates are within the background's extent and
the surface value at `[y, x]` is the global maximum. -/
theorem cross_correlation_max_loc_spec (bg filt : Mat) (hr : 0 < bg.rows) (hc : 0 < bg.cols) :
    cross_correlation bg filt true
        = CCResult.withLoc (correlate2d bg filt)
            (argmaxFlat (correlate2d bg filt) % bg.cols,
              argmaxFlat (correlate2d bg filt) / bg.cols)
    ∧ argmaxFlat (correlate2d bg filt) % bg.cols < bg.cols
    ∧ argmaxFlat (correlate2d bg filt) / bg.cols < bg.rows
    ∧ (∀ i j, i < bg.rows → j < bg.cols →
        (correlate2d bg filt).entry i j ≤
          (correlate2d bg filt).entry (argmaxFlat (correlate2d bg filt) / bg.cols)
            (argmaxFlat (correlate2d bg filt) % bg.cols))
    ∧ (∀ i j, i < bg.rows → j < bg.cols →
        i * bg.cols + j < argmaxFlat (correlate2d bg filt) →
        (correlate2d bg filt).entry i j <
          (correlate2d bg filt).entry (argmaxFlat (correlate2d bg filt) / bg.cols)
            (argmaxFlat (correlate2d bg filt) % bg.cols)) := by
  have hn : 0 < bg.rows * bg.cols := Nat.mul_pos hr hc
  obtain ⟨hlt, hmax, hfirst⟩ :=
    argmaxList_spec (entryFlat (correlate2d bg filt)) (bg.rows * bg.cols) hn
  refine ⟨rfl, Nat.mod_lt _ hc, (Nat.div_lt_iff_lt_mul hc).mpr hlt, ?_, ?_⟩
  · intro i j hi hj
    have h2 : entryFlat (correlate2d bg filt) (i * (correlate2d bg filt).cols + j)
        ≤ entryFlat (correlate2d bg filt) (argmaxFlat (correlate2d bg filt)) :=
      hmax (i * bg.cols + j) (flat_lt hi hj)
    rw [entryFlat_ix (correlate2d bg filt) i hj] at h2
    exact h2
  · intro i j hi hj hbefore
    have h2 : entryFlat (correlate2d bg filt) (i * (correlate2d bg filt).cols + j)
        < entryFlat (correlate2d bg filt) (argmaxFlat (correlate2d bg filt)) :=
      hfirst (i * bg.cols + j) hbefore
    rw [entryFlat_ix (correlate2d bg filt) i hj] at h2
    exact h2

/-- Witness for C4 at a concrete input. -/
theorem cross_correlation_max_loc_spec_witness :
    (0 < bgW.rows ∧ 0 < bgW.cols)
    ∧ cross_correlation bgW fW true
        = CCResult.withLoc (correlate2d bgW fW)
            (argmaxFlat (correlate2d bgW fW) % bgW.cols,
              argmaxFlat (correlate2d bgW fW) / bgW.cols) :=
  ⟨⟨by decide, by decide⟩, (cross_correlation_max_loc_spec bgW fW (by decide) (by decide)).1⟩

/-- C5: for a filter no larger than the background in each dimension, the
correlation surface has exactly the background's shape, and consequently every
surface produced within one rotational sweep has that same shape. -/
theorem correlate2d_shape_invariant (bg filt : Mat) (rot : Mat → Int → Mat) (step : Int)
    (h1 : filt.rows ≤ bg.rows) (h2 : filt.cols ≤ bg.cols) :
    (correlate2d bg filt).rows = bg.rows ∧ (correlate2d bg filt).cols = bg.cols
    ∧ ∀ m ∈ sweepCorrelations bg filt rot step, m.rows = bg.rows ∧ m.cols = bg.cols := by
  refine ⟨rfl, rfl, ?_⟩
  intro m hm
  simp only [sweepCorrelations, sweepData, List.map_map, List.mem_map] at hm
  obtain ⟨a, _, rfl⟩ := hm
  exact ⟨rfl, rfl⟩

/-- Witness for C5 at a concrete input. -/
theorem correlate2d_shape_invariant_witness :
    (fW.rows ≤ bgW.rows ∧ fW.cols ≤ bgW.cols)
    ∧ (correlate2d bgW fW).rows = bgW.rows :=
  ⟨⟨by decide, by decide⟩,
   (correlate2d_shape_invariant bgW fW rotW 10 (by decide) (by decide)).1⟩

/-- C7: when the external rotation primitive is the identity at angle 0 (as
an interpolating rotation is), the surface of the first sweep iteration equals
the surface `cross_correlation` returns for the unrotated filter. -/
theorem sweep_first_surface_unrotated (bg filt : Mat) (rot : Mat → Int → Mat) (step : Int)
    (h0 : 0 < step) (h1 : step < 360) (hrot : rot filt 0 = filt) :
    (sweepCorrelations bg filt rot step).head? = some (correlate2d bg filt)
    ∧ cross_correlation bg filt false = CCResult.surface (correlate2d bg filt) := by
  refine ⟨?_, rfl⟩
  have hpos : 1 ≤ nIter step 0 := nIter_pos h0 (by norm_num)
  obtain ⟨m, hm⟩ := Nat.exists_eq_succ_of_ne_zero (by omega : nIter step 0 ≠ 0)
  unfold sweepCorrelations sweepData
  rw [sweepAngles_char h0, hm, List.range_succ_eq_map]
  simp only [List.map_cons, List.map_map, List.head?_cons, Nat.cast_zero, zero_mul]
  rw [hrot]
  rfl

/-- Witness for C7 at a concrete input with an identity rotation primitive. -/
theorem sweep_first_surface_unrotated_witness :
    ((0 : Int) < 10 ∧ (10 : Int) < 360 ∧ rotW fW 0 = fW)
    ∧ (sweepCorrelations bgW fW rotW 10).head? = some (correlate2d bgW fW) :=
  ⟨⟨by decide, by decide, rfl⟩,
   (sweep_first_surface_unrotated bgW fW rotW 10 (by decide) (by decide) rfl).1⟩

/-- C6: the filter returned by the sample generator is extracted before the
Gaussian-noise step — it does not depend on the noise draw nor on the
`add_noise` flag — and the noise (scaled by 50) is added to the background
only. -/
theorem filter_extracted_before_noise (face noise noise2 : Mat)
    (normalize add_noise add_noise2 : Bool) :
    (scipy_example face noise normalize add_noise).2
        = (scipy_example face noise2 normalize add_noise2).2
    ∧ (scipy_example face noise normalize true).1
        = matAdd (scipy_example face noise normalize false).1 (matScale 50 noise) := by
  cases normalize <;> cases add_noise <;> cases add_noise2 <;> exact ⟨rfl, rfl⟩

/-- C8: with `normalize` set (and before any noise), the background has its
own mean subtracted and the extracted filter independently has its own mean
subtracted, so both returned arrays have mean exactly zero. -/
theorem scipy_example_zero_mean (face noise : Mat) (h1 : 300 < face.rows)
    (h2 : 670 < face.cols) :
    mean (scipy_example face noise true false).1 = 0
    ∧ mean (scipy_example face noise true false).2 = 0 := by
  constructor
  · exact mean_subScalar_self face (by omega) (by omega)
  · refine mean_subScalar_self (slice2d (subScalar face (mean face)) 300 365 670 750) ?_ ?_
    · show min 365 face.rows - 300 ≠ 0
      omega
    · show min 750 face.cols - 670 ≠ 0
      omega

/-- Witness for C8 at a concrete dataset image. -/
theorem scipy_example_zero_mean_witness :
    (300 < faceW.rows ∧ 670 < faceW.cols)
    ∧ mean (scipy_example faceW noiseW true false).1 = 0 :=
  ⟨⟨by decide, by decide⟩, (scipy_example_zero_mean faceW noiseW (by decide) (by decide)).1⟩

/-- C9: the no-noise path of the sample generator consumes no randomness: with
`normalize` set and `add_noise` unset the result is independent of the random
draw, so two calls yield identical background and filter arrays. -/
theorem scipy_example_deterministic_no_noise (face noise1 noise2 : Mat) :
    scipy_example face noise1 true false = scipy_example face noise2 true false := rfl

/-- C10: in the heap model of the generator, the returned filter is an
independent copy of the background sub-region: the two returned arrays live in
distinct buffers, a cell write through either array leaves every cell of the
other unchanged, and the returned background's content is exactly the
(optionally normalized, optionally noise-shifted) dataset image — the filter's
in-place mean subtraction never reaches it. -/
theorem filter_independent_copy (face noise : Nat → Nat → ℚ) (faceRows faceCols : Nat)
    (nz an : Bool) :
    (scipy_example_heap face faceRows faceCols noise nz an).1.base
        ≠ (scipy_example_heap face faceRows faceCols noise nz an).2.1.base
    ∧ (∀ i j v i2 j2,
        readCell
            (writeCell (scipy_example_heap face faceRows faceCols noise nz an).2.2
              (scipy_example_heap face faceRows faceCols noise nz an).2.1 i j v)
            (scipy_example_heap face faceRows faceCols noise nz an).1 i2 j2
          = readCell (scipy_example_heap face faceRows faceCols noise nz an).2.2
              (scipy_example_heap face faceRows faceCols noise nz an).1 i2 j2)
    ∧ (∀ i j v i2 j2,
        readCell
            (writeCell (scipy_example_heap face faceRows faceCols noise nz an).2.2
              (scipy_example_heap face faceRows faceCols noise nz an).1 i j v)
            (scipy_example_heap face faceRows faceCols noise nz an).2.1 i2 j2
          = readCell (scipy_example_heap face faceRows faceCols noise nz an).2.2
              (scipy_example_heap face faceRows faceCols noise nz an).2.1 i2 j2)
    ∧ (∀ i j,
        readCell (scipy_example_heap face faceRows faceCols noise nz an).2.2
              (scipy_example_heap face faceRows faceCols noise nz an).1 i j
          = (if nz then face i j - meanQ face faceRows faceCols else face i j)
              + (if an then noise i j * 50 else 0)) := by
  cases nz <;> cases an <;>
    refine ⟨?_, ?_, ?_, ?_⟩ <;>
      simp [scipy_example_heap, allocArr, copyArr, sliceView, subScalarInPlace,
        writeCell, readCell, meanArr, meanQ]
